import Mathlib

/-!
Verification of the VibeTrader backtesting core (fetch → cache → convert →
execute → parse pipeline) by shallow embedding of the Python sources
under `src/backtesting/` into Lean 4.

Conventions of the embedding:
* machine integers and millisecond timestamps become `Nat`;
* Python floats used for prices/volumes become `ℚ` (no claim here depends
  on floating-point rounding);
* fallible code returns `Except String _` or `Option _`;
* the file system (cache directory, Lean data directory) becomes explicit
  association lists threaded through the functions;
* UTC calendar dates (`strftime "%Y%m%d"` applied to an epoch-millisecond
  timestamp) are represented by the day index `ms / 86400000`, which is in
  bijection with the date string on the representable range.
-/

/-! ## Data model (`src/backtesting/data/models.py`) -/

/-- One kline/candlestick bar, mirroring `KlineBar` in `models.py`. -/
structure KlineBar where
  open_time : Nat
  open_ : ℚ   -- the source field is `open`, a Lean keyword
  high : ℚ
  low : ℚ
  close : ℚ
  volume : ℚ
  close_time : Nat
  quote_volume : ℚ
  trades : Nat
  taker_buy_base : ℚ
  taker_buy_quote : ℚ
  deriving DecidableEq, Repr

/-- Collection of kline bars with metadata, mirroring `KlineData` in
`models.py`.  `start_time`/`end_time` are optional exactly as in the
dataclass. -/
structure KlineData where
  symbol : String
  interval : String
  bars : List KlineBar
  start_time : Option Nat
  end_time : Option Nat
  deriving DecidableEq, Repr

/-- Constructor implementing `KlineData.__post_init__`: when bars are
present and the metadata was not given, `start_time` defaults to the first
bar's `open_time` and `end_time` to the last bar's `close_time`. -/
def mkKlineData (symbol interval : String) (bars : List KlineBar)
    (st et : Option Nat) : KlineData :=
  { symbol := symbol
    interval := interval
    bars := bars
    start_time :=
      match st, bars with
      | none, b :: _ => some b.open_time
      | _, _ => st
    end_time :=
      match et, bars.getLast? with
      | none, some b => some b.close_time
      | _, _ => et }

/-- `str.upper()`: uppercase every character.  (`String.toUpper` itself
is opaque to kernel reduction, so the character-map form is used.) -/
def string_upper (s : String) : String :=
  ⟨s.data.map Char.toUpper⟩

/-- `str.lower()`: lowercase every character. -/
def string_lower (s : String) : String :=
  ⟨s.data.map Char.toLower⟩

/-! ## Deduplication and sorting (`BinanceDataFetcher.fetch_klines`,
`src/backtesting/data/fetcher/binance_client.py` lines 266-268, and
`KlineData.merge`).

The Python code collects all fetched bars into
`bars_dict = {bar.open_time: bar for bar in all_bars}` and then sorts
`bars_dict.values()` by `open_time`.  A Python dict keyed by `open_time`
keeps, for each key, the value written last, with first-insertion order;
`insert_bar`/`dedup_keep_last` reproduce exactly that. -/

/-- Insert one bar into a dict-like accumulator keyed by `open_time`:
an existing entry with the same key is overwritten in place, otherwise the
bar is appended. -/
def insert_bar (acc : List KlineBar) (bar : KlineBar) : List KlineBar :=
  if acc.any (fun b => b.open_time == bar.open_time) then
    acc.map (fun b => if b.open_time == bar.open_time then bar else b)
  else
    acc ++ [bar]

/-- `{bar.open_time: bar for bar in bars}.values()` as a list. -/
def dedup_keep_last (bars : List KlineBar) : List KlineBar :=
  bars.foldl insert_bar []

/-- `sorted(bars, key=lambda x: x.open_time)`. -/
def sort_bars (bars : List KlineBar) : List KlineBar :=
  List.insertionSort (fun a b => a.open_time ≤ b.open_time) bars

/-- Splitting of `[start, end)` into chunks of at most
`max_bars_per_chunk` bars (`get_date_range_chunks` in
`src/backtesting/utils/time_utils.py`). -/
def get_date_range_chunks (start_time end_time interval_ms : Nat)
    (max_bars_per_chunk : Nat) : List (Nat × Nat) :=
  let chunk_duration := interval_ms * max_bars_per_chunk
  if h : chunk_duration = 0 then []
  else go chunk_duration start_time (by omega)
where
  go (chunk_duration current_start : Nat) (hd : 0 < chunk_duration) :
      List (Nat × Nat) :=
    if h : current_start < end_time then
      let chunk_end := min (current_start + chunk_duration) end_time
      (current_start, chunk_end) :: go chunk_duration chunk_end hd
    else []
  termination_by end_time - current_start
  decreasing_by
    show end_time - min (current_start + chunk_duration) end_time
        < end_time - current_start
    omega

/-- Reassembly of chunk results in `fetch_klines`: concatenate all chunk
responses, deduplicate by `open_time` keeping the most recently fetched
bar, and sort ascending by `open_time`. -/
def fetch_klines_assemble (chunk_results : List (List KlineBar)) :
    List KlineBar :=
  sort_bars (dedup_keep_last chunk_results.flatten)

/-- `BinanceDataFetcher.fetch_klines`, with the network abstracted as a
function `server` from a `(chunk_start, chunk_end)` request to the list of
bars the exchange returns for it (chunk edges may overlap arbitrarily). -/
def fetch_klines (server : Nat × Nat → List KlineBar)
    (symbol interval : String) (start_time end_time interval_ms limit : Nat) :
    KlineData :=
  let chunks := get_date_range_chunks start_time end_time interval_ms limit
  let all_bars := (chunks.map server).flatten
  mkKlineData (string_upper symbol) interval
    (sort_bars (dedup_keep_last all_bars)) none none

/-! ## Interval configuration (`src/backtesting/config/intervals.py`) -/

/-- `INTERVAL_MINUTES` restricted to the interval strings that are valid
members of the `BinanceInterval` enum; `none` models the `ValueError`
raised by `BinanceInterval(interval)` for any other string. -/
def interval_minutes : String → Option Nat
  | "1m" => some 1
  | "3m" => some 3
  | "5m" => some 5
  | "15m" => some 15
  | "30m" => some 30
  | "1h" => some 60
  | "2h" => some 120
  | "4h" => some 240
  | "6h" => some 360
  | "8h" => some 480
  | "12h" => some 720
  | "1d" => some 1440
  | "3d" => some 4320
  | "1w" => some 10080
  | "1M" => some 43200
  | _ => none

/-- `get_weight_for_limit` in `intervals.py`. -/
def get_weight_for_limit (limit : Nat) : Nat :=
  if limit < 100 then 1
  else if limit < 500 then 2
  else if limit ≤ 1000 then 5
  else 10

/-! ## Format converter (`src/backtesting/data/converter/lean_converter.py`) -/

/-- `LeanDataConverter._get_lean_resolution`: map a Binance interval to a
Lean resolution tier, defaulting to `"minute"` for unknown intervals
(the `except (ValueError, KeyError)` branch). -/
def get_lean_resolution (interval : String) : String :=
  match interval_minutes interval with
  | some minutes =>
      if minutes < 60 then "minute"
      else if minutes < 1440 then "hour"
      else "daily"
  | none => "minute"

/-- `LeanDataConverter._get_lean_symbol`: lowercase the Binance symbol. -/
def get_lean_symbol (symbol : String) : String :=
  string_lower symbol

/-- UTC calendar-day index of a millisecond epoch timestamp. This models
`ms_to_timestamp(ms).strftime("%Y%m%d")`: on the representable range the
date string and the day index `ms / 86400000` determine each other. -/
def date_key (ms : Nat) : Nat :=
  ms / 86400000

/-- One step of `_group_bars_by_date`: add a bar to its day's group,
creating the group on first sight of the day (dict insertion order). -/
def group_step (grouped : List (Nat × List KlineBar)) (bar : KlineBar) :
    List (Nat × List KlineBar) :=
  if grouped.any (fun g => g.1 == date_key bar.open_time) then
    grouped.map (fun g =>
      if g.1 == date_key bar.open_time then (g.1, g.2 ++ [bar]) else g)
  else
    grouped ++ [(date_key bar.open_time, [bar])]

/-- `LeanDataConverter._group_bars_by_date`: group bars by UTC calendar
day, in first-occurrence order (Python dict iteration order). -/
def group_bars_by_date (bars : List KlineBar) :
    List (Nat × List KlineBar) :=
  bars.foldl group_step []

/-- Location of one zip artifact produced by the converter, relative to
`{output_dir}/crypto/binance/`: resolution directory, optional per-symbol
subdirectory, and file name. -/
structure LeanZipPath where
  resolution : String
  symbol_dir : Option String
  filename : String
  deriving DecidableEq, Repr

/-- `LeanDataConverter.convert` (lines 219-286): for the hour and daily
tiers it writes a `{symbol}_trade.zip` and a `{symbol}_quote.zip` directly
in the resolution directory; for the minute tier it writes one
`{date}_{data_type}.zip` per calendar day covered by the bars, in a
per-symbol subdirectory.  Only the produced file locations are modelled;
the CSV payload is not needed by any claim.  The calendar-day component of
a minute-tier file name is rendered from the day index. -/
def convert (data : KlineData) (data_type : String) : List LeanZipPath :=
  if data.bars = [] then []
  else
    let resolution := get_lean_resolution data.interval
    let lean_symbol := get_lean_symbol data.symbol
    if resolution = "hour" ∨ resolution = "daily" then
      [ { resolution := resolution, symbol_dir := none
          filename := lean_symbol ++ "_trade.zip" },
        { resolution := resolution, symbol_dir := none
          filename := lean_symbol ++ "_quote.zip" } ]
    else
      (group_bars_by_date data.bars).map (fun g =>
        { resolution := resolution, symbol_dir := some lean_symbol
          filename := toString g.1 ++ "_" ++ data_type ++ ".zip" })

/-! ## Request path with retries
(`BinanceDataFetcher._make_request`, `binance_client.py` lines 90-152).

The loop `for attempt in range(max_retries)` is modelled with the server's
behaviour abstracted as a function from the attempt index to the response
received on that attempt.  Sleeps performed before retries are collected
in a list so that the "sleeps for the advertised interval" part of the
spec is visible in the result. -/

/-- One HTTP response as classified by `_make_request`. -/
inductive ApiResponse where
  /-- HTTP 200 with a payload. -/
  | success
  /-- HTTP 429 with the advertised `Retry-After` header value (seconds). -/
  | status429 (retry_after : Nat)
  /-- HTTP 418, IP ban. -/
  | status418
  /-- Any other non-2xx status with provider code and message. -/
  | otherError (code : Int) (msg : String)
  /-- `aiohttp.ClientError`: transient network failure. -/
  | networkError
  deriving DecidableEq, Repr

/-- Terminal outcome of `_make_request`. -/
inductive RequestOutcome where
  /-- Returned the JSON payload on the given attempt index. -/
  | ok (attempt : Nat)
  /-- `BinanceAPIError` with status 418 (hard ban), raised immediately. -/
  | banned
  /-- `BinanceAPIError` for any other non-2xx status. -/
  | apiError (code : Int) (msg : String)
  /-- Transient network failure re-raised after the last attempt. -/
  | networkFail
  /-- Fell out of the retry loop: `RuntimeError("Max retries exceeded")`. -/
  | maxRetriesExceeded
  deriving DecidableEq, Repr

/-- Result of the request path: terminal outcome plus the sleep durations
performed (in seconds), in order. -/
structure RequestRun where
  outcome : RequestOutcome
  sleeps : List Nat
  deriving DecidableEq, Repr

/-- The retry loop of `_make_request` from attempt index `attempt`
onwards.  An HTTP 429 sleeps for the advertised interval and `continue`s —
which moves to the next iteration of `for attempt in range(max_retries)`,
so the retry consumes an attempt.  A network error backs off
`2 ** attempt` seconds and retries unless this was the last attempt. -/
def make_request_from (responses : Nat → ApiResponse) (max_retries : Nat)
    (attempt : Nat) : RequestRun :=
  if _h : attempt < max_retries then
    match responses attempt with
    | .success => ⟨.ok attempt, []⟩
    | .status429 retry_after =>
        let rest := make_request_from responses max_retries (attempt + 1)
        ⟨rest.outcome, retry_after :: rest.sleeps⟩
    | .status418 => ⟨.banned, []⟩
    | .otherError code msg => ⟨.apiError code msg, []⟩
    | .networkError =>
        if attempt < max_retries - 1 then
          let rest := make_request_from responses max_retries (attempt + 1)
          ⟨rest.outcome, 2 ^ attempt :: rest.sleeps⟩
        else ⟨.networkFail, []⟩
  else ⟨.maxRetriesExceeded, []⟩
termination_by max_retries - attempt

/-- `BinanceDataFetcher._make_request` with the server abstracted as the
per-attempt response function. -/
def make_request (responses : Nat → ApiResponse) (max_retries : Nat) :
    RequestRun :=
  make_request_from responses max_retries 0

/-! ## Rate limiter (`src/backtesting/utils/rate_limiter.py`)

`RateLimiter` is a continuously refilling token bucket: `_refill` adds
`elapsed * (max_requests / window_seconds)` tokens, capped at
`max_requests`; `acquire(tokens)` blocks until the bucket holds enough
tokens and then debits them.  `WeightedRateLimiter.acquire(weight)` debits
`weight` from its weight bucket (and `1` from its request bucket); the
weight bucket alone decides how many weight units can be consumed, so the
rolling-window claim is settled against one bucket with capacity
`max_weight`.

Timing is modelled with rational clock values: an `acquire` call is an
event carrying the monotonic time at which the debit happens and the
weight debited.  A trace of events is *admissible* (`RunsTo`) when the
times are reached in order and each debit finds enough tokens after the
refill at its time — exactly the state in which the blocking loop in
`acquire` performs the subtraction. -/

/-- Mutable state of one token bucket (`_tokens`, `_last_update`). -/
structure BucketState where
  tokens : ℚ
  last_update : ℚ
  deriving DecidableEq, Repr

/-- `RateLimiter._refill` with capacity `cap` and refill rate
`rate = cap / window_seconds`. -/
def bucket_refill (cap rate : ℚ) (s : BucketState) (now : ℚ) : BucketState :=
  { tokens := min cap (s.tokens + (now - s.last_update) * rate)
    last_update := now }

/-- One `acquire` debit at time `t` for `w` tokens: refill, then debit if
enough tokens are available (otherwise the caller would still be blocked
at time `t`, so no state transition happens). -/
def bucket_acquire (cap rate : ℚ) (s : BucketState) (t w : ℚ) :
    Option BucketState :=
  let s' := bucket_refill cap rate s t
  if w ≤ s'.tokens then some { s' with tokens := s'.tokens - w } else none

/-- One `acquire` event: the (monotonic) time at which the debit happens
and the weight debited. -/
structure AcquireEvent where
  time : ℚ
  weight : ℚ
  deriving DecidableEq, Repr

/-- Admissible runs of the bucket: every event happens no earlier than the
previous state update and succeeds in debiting its weight. -/
inductive RunsTo (cap rate : ℚ) : BucketState → List AcquireEvent → BucketState → Prop
  | nil (s : BucketState) : RunsTo cap rate s [] s
  | cons {s s' sf : BucketState} {e : AcquireEvent} {es : List AcquireEvent}
      (ht : s.last_update ≤ e.time)
      (hstep : bucket_acquire cap rate s e.time e.weight = some s')
      (hrest : RunsTo cap rate s' es sf) :
      RunsTo cap rate s (e :: es) sf

/-- Total weight of the events of a trace. -/
def sum_weights (es : List AcquireEvent) : ℚ :=
  (es.map (·.weight)).sum

/-- The events of a trace that fall inside the closed rolling window
`[t, t + window]`. -/
def window_events (t window : ℚ) (es : List AcquireEvent) :
    List AcquireEvent :=
  es.filter (fun e => decide (t ≤ e.time) && decide (e.time ≤ t + window))

/-! ## Cache store (`src/backtesting/data/storage/file_manager.py`)

A cache record is one JSON file; the cache directory becomes an
association list from file names to the stored `KlineData`.  File names
(`{SYMBOL}_{interval}_{start_date}_{end_date}.json`) carry the dates only
at calendar-day granularity, which the key reproduces with day indices. -/

/-- The parts of a cache file name
(`DataFileManager._get_filename`): upper-cased symbol, interval, and the
UTC calendar days of the start and end timestamps. -/
structure CacheKey where
  symbol : String
  interval : String
  start_day : Nat
  end_day : Nat
  deriving DecidableEq, Repr

/-- `DataFileManager._get_filename`. -/
def cache_filename (symbol interval : String) (start_time end_time : Nat) :
    CacheKey :=
  ⟨string_upper symbol, interval, date_key start_time, date_key end_time⟩

/-- The cache directory: one stored `KlineData` per file name. -/
abbrev Cache := List (CacheKey × KlineData)

/-- Look up a file by name (`filepath.exists()` + `load`). -/
def cache_lookup (cache : Cache) (key : CacheKey) : Option KlineData :=
  match cache with
  | [] => none
  | r :: rest => if r.1 = key then some r.2 else cache_lookup rest key

/-- Write a file: overwrite the record with the same name if it exists,
otherwise add a new one. -/
def cache_write (cache : Cache) (key : CacheKey) (data : KlineData) :
    Cache :=
  if (cache_lookup cache key).isSome then
    cache.map (fun r => if r.1 = key then (key, data) else r)
  else
    cache ++ [(key, data)]

/-- `DataFileManager.save` (lines 59-83): refuse an empty series with
`ValueError("Cannot save empty KlineData")` before touching the
directory; otherwise write exactly one record file named from the
series' metadata.  A series whose metadata is missing would make
`ms_to_timestamp(None)` raise, modelled as the second error branch. -/
def save (data : KlineData) (cache : Cache) : Except String Cache :=
  if data.bars = [] then .error "Cannot save empty KlineData"
  else
    match data.start_time, data.end_time with
    | some st, some et =>
        .ok (cache_write cache
          (cache_filename data.symbol data.interval st et) data)
    | _, _ => .error "KlineData metadata missing"

/-- `DataFileManager.find_cached` (lines 100-152).  Exact-file-name hit
first, returning the stored record as loaded.  Otherwise scan the records
matching the `{SYMBOL}_{interval}_*` glob pattern, and return the first
whose stored range is a superset of the request, with its bars filtered
by `start_time <= bar.open_time <= end_time` (both bounds inclusive).
Records whose metadata is `None` raise inside the scan's `try` block and
are skipped by the `except ... continue`. -/
def find_cached (cache : Cache) (symbol interval : String)
    (start_time end_time : Nat) : Option KlineData :=
  match cache_lookup cache
      (cache_filename symbol interval start_time end_time) with
  | some data => some data
  | none =>
      (cache.filter (fun r =>
          r.1.symbol == string_upper symbol &&
            r.1.interval == interval)).findSome?
        (fun r =>
          match r.2.start_time, r.2.end_time with
          | some st, some et =>
              if st ≤ start_time ∧ end_time ≤ et then
                some (mkKlineData r.2.symbol r.2.interval
                  (r.2.bars.filter (fun b =>
                    start_time ≤ b.open_time ∧ b.open_time ≤ end_time))
                  none none)
              else none
          | _, _ => none)

/-! ## Execution runner (`src/backtesting/engine/lean_runner.py`) -/

/-- The fields of `LeanBacktestResult` the claims are about. -/
structure LeanBacktestResult where
  success : Bool
  error_message : Option String
  results_file_found : Bool
  deriving DecidableEq, Repr

/-- Observable behaviour of one Docker subprocess invocation:
how long `process.communicate()` would take (seconds), the exit code,
captured stderr, whether the setup code raised, and whether the results
directory ends up holding a results file. -/
structure DockerRun where
  duration : Nat
  exit_code : Int
  std_err : String
  setup_exception : Option String
  results_json : Bool
  deriving DecidableEq, Repr

/-- `LeanRunner.run_backtest_docker` (lines 128-234), returning the result
together with whether `process.kill()` was invoked.  `asyncio.wait_for`
raises `TimeoutError` exactly when the subprocess outlives
`timeout_seconds`; the handler kills the process and returns a failure
whose message embeds the configured timeout.  A nonzero exit returns the
captured stderr (or `"Unknown error"` when stderr is empty); exit 0 hands
over to `_parse_results`, which always reports success. -/
def run_backtest_docker (beh : DockerRun) (timeout_seconds : Nat) :
    LeanBacktestResult × Bool :=
  match beh.setup_exception with
  | some e => (⟨false, some e, false⟩, false)
  | none =>
      if timeout_seconds < beh.duration then
        (⟨false,
          some ("Backtest timed out after " ++ toString timeout_seconds ++ "s"),
          false⟩, true)
      else if beh.exit_code ≠ 0 then
        (⟨false,
          some (if beh.std_err = "" then "Unknown error" else beh.std_err),
          false⟩, false)
      else
        (⟨true, none, beh.results_json⟩, false)

/-! ## Results parsing: trade counting
(`ResultsParser.parse_dict`, `src/backtesting/results/parser.py`
lines 107-117). -/

/-- One order record from the engine's `orders` map; absent JSON keys are
`none`. -/
structure LeanOrder where
  status : Option Int
  direction : Option Int
  deriving DecidableEq, Repr

/-- Orders with `status == 3` (filled). -/
def filled_orders (orders : List LeanOrder) : List LeanOrder :=
  orders.filter (fun o => o.status == some 3)

/-- Number of filled orders with `direction == 0` (buy). -/
def count_filled_buys (orders : List LeanOrder) : Nat :=
  ((filled_orders orders).filter (fun o => o.direction == some 0)).length

/-- Number of filled orders with `direction == 1` (sell). -/
def count_filled_sells (orders : List LeanOrder) : Nat :=
  ((filled_orders orders).filter (fun o => o.direction == some 1)).length

/-- The engine's self-reported completed-trade count: `parse_dict` uses
`totalNumberOfTrades` from `totalPerformance.tradeStatistics` when that
value is present and truthy, and otherwise keeps the `"Total Trades"`
figure parsed from the statistics map by `_parse_metrics`. -/
def engine_reported_trades (trade_stats_count : Option Int)
    (stats_total_trades : Int) : Int :=
  match trade_stats_count with
  | some n => if n ≠ 0 then n else stats_total_trades
  | none => stats_total_trades

/-- The completed-trade count reported by `ResultsParser.parse_dict`:
when the `orders` map is non-empty, `min(filled buys, filled sells)`
overrides the engine's figure; otherwise the engine's self-reported count
stands. -/
def parsed_total_trades (orders : List LeanOrder)
    (trade_stats_count : Option Int) (stats_total_trades : Int) : Int :=
  if orders ≠ [] then
    min (count_filled_buys orders : Int) (count_filled_sells orders : Int)
  else
    engine_reported_trades trade_stats_count stats_total_trades

/-! ## Orchestrator (`src/backtesting/agent/backtesting_agent.py`)

`BacktestingAgent.run_backtest` wraps the whole pipeline in one
`try/except Exception` block.  Every raised exception is tagged with
`error_stage = "unknown"`; the only stage tag assigned specifically is
`"execution"`, used when the Lean runner returns a result with
`success == False`.  The environmental outcomes of the effectful stages
(network fetch, zip writing, Docker, results file reading) are fields of
`RunEnv`; everything else is computed by the embedded functions. -/

/-- `BacktestingAgent.SUPPORTED_INTERVALS`. -/
def supported_intervals : List (String × String) :=
  [("1m", "Minute"), ("1h", "Hour"), ("1d", "Daily")]

/-- `BacktestingAgent._validate_interval`: return the Lean resolution for
a supported interval, raise `RuntimeError` otherwise. -/
def validate_interval (interval : String) : Except String String :=
  match supported_intervals.find? (fun p => p.1 == interval) with
  | some p => .ok p.2
  | none =>
      .error ("Interval " ++ interval ++ " is not supported. " ++
        "Only 1m, 1h, 1d are supported by Lean. " ++
        "Other intervals (e.g., 15m, 4h) would produce incorrect " ++
        "indicator calculations.")

/-- The fields of `BacktestRequest` that drive the control flow, with the
date range already converted to epoch milliseconds. -/
structure BacktestRequest where
  strategy_code : Option String
  symbol : String
  interval : String
  start_ms : Nat
  end_ms : Nat
  use_cached_data : Bool
  force_data_refresh : Bool
  deriving DecidableEq, Repr

/-- Environmental outcomes of the effectful pipeline stages: the state of
the cache directory, what `BinanceDataFetcher.fetch_klines` would return
if invoked (and how many HTTP requests that invocation performs), whether
the converter's zip writing raises, Docker availability and subprocess
behaviour, the execution deadline, and whether reading the results
artifact raises. -/
structure RunEnv where
  cache : Cache
  fetch_result : Except String KlineData
  fetch_requests : Nat
  convert_io : Except String Unit
  docker_available : Bool
  docker_run : DockerRun
  timeout_seconds : Nat
  parse_io : Except String Unit

/-- The response fields the claims are about
(`BacktestResponse` in `backtesting_agent.py`). -/
structure BacktestResponse where
  success : Bool
  error_message : Option String
  error_stage : Option String
  used_cache : Bool
  bars_fetched : Nat
  deriving DecidableEq, Repr

/-- The pipeline stages, in orchestrator order. -/
inductive Stage where
  | data_fetch
  | conversion
  | preparation
  | execution
  | parsing
  deriving DecidableEq, Repr

/-- The order in which `run_backtest` attempts the stages. -/
def stage_order : List Stage :=
  [.data_fetch, .conversion, .preparation, .execution, .parsing]

/-- `BacktestingAgent._fetch_data`: serve from the cache when allowed and
covered, otherwise fetch from the network and save.  Returns the series,
the `used_cache` flag, the cache directory afterwards, and the number of
HTTP requests issued (zero on a served cache hit, since the fetcher is
never invoked).  The guard `if cached:` tests Python truthiness:
`KlineData` defines `__len__`, so a hit whose filtered bar list is empty
is falsy and falls through to the network fetch. -/
def fetch_data (env : RunEnv) (req : BacktestRequest) :
    Except String (KlineData × Bool × Cache × Nat) :=
  let fetch_path : Except String (KlineData × Bool × Cache × Nat) :=
    match env.fetch_result with
    | .error e => .error e
    | .ok data =>
        match save data env.cache with
        | .error e => .error e
        | .ok cache' => .ok (data, false, cache', env.fetch_requests)
  if req.use_cached_data && !req.force_data_refresh then
    match find_cached env.cache req.symbol req.interval req.start_ms
        req.end_ms with
    | some cached =>
        if cached.bars ≠ [] then .ok (cached, true, env.cache, 0)
        else fetch_path
    | none => fetch_path
  else fetch_path

/-- `BacktestingAgent._prepare_strategy` with a `strategy_code` request
(the `strategy_file` variant differs only in where the text comes from):
fail when no strategy is given, otherwise `_patch_strategy_code` begins by
validating the interval and raises for an unsupported one.  The textual
regex substitutions themselves are not modelled — no claim depends on the
patched text — so the value returned is the Lean resolution used for
patching. -/
def prepare_strategy (req : BacktestRequest) : Except String String :=
  match req.strategy_code with
  | none =>
      .error ("No valid strategy file provided. " ++
        "Use --strategy-file to specify a strategy file path.")
  | some _ => validate_interval req.interval

/-- A failure response with the generic `except Exception` tagging. -/
def fail_unknown (msg : String) (used_cache : Bool) (bars : Nat) :
    BacktestResponse :=
  ⟨false, some msg, some "unknown", used_cache, bars⟩

/-- `BacktestingAgent.run_backtest` (lines 182-260): the five-stage
pipeline, returning the response together with the list of stages
attempted, in order.  A stage appears in the trace exactly when the
orchestrator reached the code performing it. -/
def run_backtest (env : RunEnv) (req : BacktestRequest) :
    BacktestResponse × List Stage :=
  match fetch_data env req with
  | .error e => (fail_unknown e false 0, [.data_fetch])
  | .ok (data, used_cache, _, _) =>
      match env.convert_io with
      | .error e =>
          (fail_unknown e used_cache data.bars.length,
            [.data_fetch, .conversion])
      | .ok () =>
          match prepare_strategy req with
          | .error e =>
              (fail_unknown e used_cache data.bars.length,
                [.data_fetch, .conversion, .preparation])
          | .ok _resolution =>
              if env.docker_available then
                let result :=
                  (run_backtest_docker env.docker_run env.timeout_seconds).1
                if result.success then
                  match env.parse_io with
                  | .error e =>
                      (fail_unknown e used_cache data.bars.length, stage_order)
                  | .ok () =>
                      (⟨true, none, none, used_cache, data.bars.length⟩,
                        stage_order)
                else
                  (⟨false, result.error_message, some "execution",
                      used_cache, data.bars.length⟩,
                    [.data_fetch, .conversion, .preparation, .execution])
              else
                (fail_unknown
                  ("Docker is not available. " ++
                    "Please ensure Docker is installed and running.")
                  used_cache data.bars.length,
                  [.data_fetch, .conversion, .preparation, .execution])

/-! ## Lemmas: deduplication and sorting -/

/-- `insert_bar` never changes the key sequence except by appending a
fresh key. -/
theorem map_open_time_insert_bar (acc : List KlineBar) (b : KlineBar) :
    (insert_bar acc b).map (·.open_time) =
      if acc.any (fun x => x.open_time == b.open_time) then
        acc.map (·.open_time)
      else
        acc.map (·.open_time) ++ [b.open_time] := by
  unfold insert_bar
  split
  · rw [List.map_map]
    apply List.map_congr_left
    intro a _
    simp only [Function.comp_apply]
    split
    · next h => exact (beq_iff_eq.mp h).symm
    · rfl
  · simp

/-- Folding `insert_bar` preserves key distinctness. -/
theorem nodup_foldl_insert_bar :
    ∀ (bars acc : List KlineBar), ((acc.map (·.open_time)).Nodup) →
      (((bars.foldl insert_bar acc).map (·.open_time)).Nodup) := by
  intro bars
  induction bars with
  | nil => intro acc h; simpa using h
  | cons b bs ih =>
      intro acc h
      rw [List.foldl_cons]
      apply ih
      rw [map_open_time_insert_bar]
      split
      · exact h
      · next hany =>
          have hmem : b.open_time ∉ acc.map (·.open_time) := by
            simp only [List.any_eq_true, beq_iff_eq] at hany
            intro hmem
            rw [List.mem_map] at hmem
            obtain ⟨x, hx, hxe⟩ := hmem
            exact hany ⟨x, hx, hxe⟩
          exact ((List.perm_append_singleton _ _).nodup_iff).mpr
            (List.nodup_cons.mpr ⟨hmem, h⟩)

/-- The values of the deduplicating dict have pairwise-distinct
`open_time` keys. -/
theorem nodup_dedup_keep_last (bars : List KlineBar) :
    ((dedup_keep_last bars).map (·.open_time)).Nodup :=
  nodup_foldl_insert_bar bars [] List.nodup_nil

instance : IsTotal KlineBar (fun a b => a.open_time ≤ b.open_time) :=
  ⟨fun a b => Nat.le_total a.open_time b.open_time⟩

instance : IsTrans KlineBar (fun a b => a.open_time ≤ b.open_time) :=
  ⟨fun _ _ _ => Nat.le_trans⟩

/-- Sorting a list with pairwise-distinct keys yields a strictly
ascending key sequence. -/
theorem sort_bars_pairwise_lt (l : List KlineBar)
    (h : (l.map (·.open_time)).Nodup) :
    (sort_bars l).Pairwise (fun a b => a.open_time < b.open_time) := by
  have hs : (sort_bars l).Pairwise (fun a b => a.open_time ≤ b.open_time) :=
    List.sorted_insertionSort _ l
  have hperm : List.Perm (sort_bars l) l :=
    List.perm_insertionSort _ l
  have hn : ((sort_bars l).map (·.open_time)).Nodup :=
    ((hperm.map _).nodup_iff).mpr h
  have hne : (sort_bars l).Pairwise
      (fun a b => a.open_time ≠ b.open_time) :=
    List.pairwise_map.mp hn
  exact (hs.and hne).imp (fun hab => Nat.lt_of_le_of_ne hab.1 hab.2)

/-- C2. For every chunked fetch over any date range — any chunk split,
any per-chunk server response, chunk edges overlapping arbitrarily — the
reassembled series has pairwise-distinct `open_time` values and is sorted
in strictly ascending `open_time` order; in particular this holds for the
series `fetch_klines` builds from the chunks of `get_date_range_chunks`. -/
theorem fetch_klines_no_dup_sorted_ascending :
    (∀ chunk_results : List (List KlineBar),
      (fetch_klines_assemble chunk_results).Pairwise
        (fun a b => a.open_time < b.open_time)) ∧
    (∀ (server : Nat × Nat → List KlineBar) (symbol interval : String)
        (start_time end_time interval_ms limit : Nat),
      (fetch_klines server symbol interval start_time end_time interval_ms
          limit).bars.Pairwise
        (fun a b => a.open_time < b.open_time)) := by
  constructor
  · intro chunk_results
    exact sort_bars_pairwise_lt _ (nodup_dedup_keep_last _)
  · intro server symbol interval start_time end_time interval_ms limit
    show (sort_bars (dedup_keep_last _)).Pairwise _
    exact sort_bars_pairwise_lt _ (nodup_dedup_keep_last _)

/-! ## Lemmas: converter day grouping -/

/-- `group_step` keeps the day keys, appending a fresh one on first
sight. -/
theorem map_fst_group_step (grouped : List (Nat × List KlineBar))
    (bar : KlineBar) :
    (group_step grouped bar).map (·.1) =
      if grouped.any (fun g => g.1 == date_key bar.open_time) then
        grouped.map (·.1)
      else
        grouped.map (·.1) ++ [date_key bar.open_time] := by
  unfold group_step
  split
  · rw [List.map_map]
    apply List.map_congr_left
    intro g _
    simp only [Function.comp_apply]
    split <;> rfl
  · simp

/-- Folding `group_step` keeps the day keys pairwise distinct. -/
theorem nodup_foldl_group_step :
    ∀ (bars : List KlineBar) (acc : List (Nat × List KlineBar)),
      ((acc.map (·.1)).Nodup) →
      (((bars.foldl group_step acc).map (·.1)).Nodup) := by
  intro bars
  induction bars with
  | nil => intro acc h; simpa using h
  | cons b bs ih =>
      intro acc h
      rw [List.foldl_cons]
      apply ih
      rw [map_fst_group_step]
      split
      · exact h
      · next hany =>
          have hmem : date_key b.open_time ∉ acc.map (·.1) := by
            simp only [List.any_eq_true, beq_iff_eq] at hany
            intro hmem
            rw [List.mem_map] at hmem
            obtain ⟨g, hg, hge⟩ := hmem
            exact hany ⟨g, hg, hge⟩
          exact ((List.perm_append_singleton _ _).nodup_iff).mpr
            (List.nodup_cons.mpr ⟨hmem, h⟩)

/-- The set of day keys of the groups is the set of calendar days of the
accumulated bars. -/
theorem toFinset_foldl_group_step :
    ∀ (bars : List KlineBar) (acc : List (Nat × List KlineBar)),
      ((bars.foldl group_step acc).map (·.1)).toFinset =
        (acc.map (·.1)).toFinset ∪
          (bars.map (fun b => date_key b.open_time)).toFinset := by
  intro bars
  induction bars with
  | nil => intro acc; simp
  | cons b bs ih =>
      intro acc
      rw [List.foldl_cons, ih]
      have hstep := map_fst_group_step acc b
      by_cases hany : acc.any (fun g => g.1 == date_key b.open_time)
      · rw [hstep, if_pos hany]
        have hmem : date_key b.open_time ∈ acc.map (·.1) := by
          simp only [List.any_eq_true, beq_iff_eq] at hany
          obtain ⟨g, hg, hge⟩ := hany
          exact List.mem_map.mpr ⟨g, hg, hge⟩
        ext x
        simp only [Finset.mem_union, List.mem_toFinset, List.map_cons,
          List.mem_cons]
        constructor
        · rintro (hx | hx)
          · exact Or.inl hx
          · exact Or.inr (Or.inr hx)
        · rintro (hx | rfl | hx)
          · exact Or.inl hx
          · exact Or.inl hmem
          · exact Or.inr hx
      · rw [hstep, if_neg hany]
        ext x
        simp only [Finset.mem_union, List.mem_toFinset, List.mem_append,
          List.map_cons, List.mem_cons, List.mem_singleton]
        tauto

/-- The number of day groups is the number of distinct calendar days
among the bars. -/
theorem group_bars_by_date_length (bars : List KlineBar) :
    (group_bars_by_date bars).length =
      (bars.map (fun b => date_key b.open_time)).toFinset.card := by
  have h1 : ((group_bars_by_date bars).map (·.1)).Nodup :=
    nodup_foldl_group_step bars [] (by simp)
  have h2 : ((group_bars_by_date bars).map (·.1)).toFinset =
      (bars.map (fun b => date_key b.open_time)).toFinset := by
    have h := toFinset_foldl_group_step bars []
    simpa [group_bars_by_date] using h
  calc (group_bars_by_date bars).length
      = ((group_bars_by_date bars).map (·.1)).length :=
        (List.length_map _ _).symm
    _ = ((group_bars_by_date bars).map (·.1)).toFinset.card :=
        (List.toFinset_card_of_nodup h1).symm
    _ = _ := by rw [h2]

/-- C1 (amended).  For every non-empty bar series: at the hour or daily
tier, `convert` produces exactly two archives per symbol — a trade
archive and a quote archive — each placed directly in the resolution
directory with no symbol subdirectory; at the minute tier it produces
exactly one archive per distinct calendar day covered by the bars, each
placed in a per-symbol subdirectory of the resolution directory. -/
theorem convert_layout (data : KlineData) (data_type : String)
    (hne : data.bars ≠ []) :
    ((get_lean_resolution data.interval = "hour" ∨
        get_lean_resolution data.interval = "daily") →
      (convert data data_type).length = 2 ∧
      ∀ p ∈ convert data data_type,
        p.symbol_dir = none ∧
          p.resolution = get_lean_resolution data.interval) ∧
    (get_lean_resolution data.interval = "minute" →
      (convert data data_type).length =
        (data.bars.map (fun b => date_key b.open_time)).toFinset.card ∧
      ∀ p ∈ convert data data_type,
        p.symbol_dir = some (get_lean_symbol data.symbol) ∧
          p.resolution = "minute") := by
  constructor
  · intro hres
    have hcond : (get_lean_resolution data.interval = "hour" ∨
        get_lean_resolution data.interval = "daily") := hres
    rcases hres with h | h <;>
      simp only [convert, if_neg hne, h, if_pos hcond] <;>
      constructor <;> simp [h]
  · intro hres
    have hcond : ¬(get_lean_resolution data.interval = "hour" ∨
        get_lean_resolution data.interval = "daily") := by
      rw [hres]; decide
    simp only [convert, if_neg hne, if_neg hcond]
    refine ⟨?_, ?_⟩
    · rw [List.length_map]
      exact group_bars_by_date_length data.bars
    · intro p hp
      rw [List.mem_map] at hp
      obtain ⟨g, _, rfl⟩ := hp
      exact ⟨rfl, hres⟩

/-- A bar with one-hour span starting at millisecond `t`; prices and
volumes are irrelevant to the layout. -/
def sample_bar (t : Nat) : KlineBar :=
  ⟨t, 1, 1, 1, 1, 1, t + 3599999, 1, 1, 1, 1⟩

/-- A one-bar hourly series (hour tier). -/
def sample_hour_data : KlineData :=
  mkKlineData "BTCUSDT" "1h" [sample_bar 0] none none

/-- A minute series covering two calendar days. -/
def sample_minute_data : KlineData :=
  mkKlineData "BTCUSDT" "1m"
    [sample_bar 0, sample_bar 60000, sample_bar 86400000] none none

/-- C1 counterexample.  For an hourly series of one symbol, `convert`
produces two archives, not the single archive per symbol that the claim
states. -/
theorem convert_hour_tier_not_single_archive :
    (convert sample_hour_data "trade").length = 2 ∧
    ¬((convert sample_hour_data "trade").length = 1) := by
  decide

/-- Witness for the amended C1 at concrete inputs: the hour-tier series
yields two archives and the two-day minute series yields one archive per
calendar day. -/
theorem convert_layout_witness :
    (convert sample_hour_data "trade").length = 2 ∧
    (convert sample_minute_data "trade").length =
      (sample_minute_data.bars.map
        (fun b => date_key b.open_time)).toFinset.card :=
  ⟨((convert_layout sample_hour_data "trade" (by decide)).1
      (Or.inl (by decide))).1,
    ((convert_layout sample_minute_data "trade" (by decide)).2
      (by decide)).1⟩

/-! ## Lemmas: cache range coverage -/

/-- Every series produced by the superset-scan branch of `find_cached`
has all its bars inside the closed interval
`[start_time, end_time]`. -/
theorem find_cached_scan_bars_in_range (cache : Cache)
    (symbol interval : String) (start_time end_time : Nat)
    (res : KlineData)
    (hexact : cache_lookup cache
      (cache_filename symbol interval start_time end_time) = none)
    (h : find_cached cache symbol interval start_time end_time = some res) :
    ∀ b ∈ res.bars, start_time ≤ b.open_time ∧ b.open_time ≤ end_time := by
  unfold find_cached at h
  rw [hexact] at h
  obtain ⟨r, _, hr⟩ := List.exists_of_findSome?_eq_some h
  rcases hst : r.2.start_time with _ | st <;> rw [hst] at hr
  · exact absurd hr (by simp)
  · rcases het : r.2.end_time with _ | et <;> rw [het] at hr
    · exact absurd hr (by simp)
    · dsimp only at hr
      by_cases hcov : st ≤ start_time ∧ end_time ≤ et
      · rw [if_pos hcov] at hr
        have hres : res.bars = r.2.bars.filter (fun b =>
            decide (start_time ≤ b.open_time ∧ b.open_time ≤ end_time)) := by
          cases hr
          rfl
        intro b hb
        rw [hres, List.mem_filter] at hb
        exact of_decide_eq_true hb.2
      · rw [if_neg hcov] at hr
        exact absurd hr (by simp)

/-- C3 (corrected claim, amended statement).  For every requested range
fully covered by a previously saved record for the same symbol and
interval, `find_cached` returns a cache hit; when the hit comes from the
superset scan — no exact-file-name match — the returned bars all lie in
the closed interval `[start_time, end_time]`: the filter is inclusive of
`end_time`, not half-open.  The orchestrator's data stage serves a hit
holding at least one bar with zero HTTP requests (the fetcher is never
invoked); a hit whose filtered window holds no bars is falsy in Python
(`KlineData.__len__`) and falls through to the network fetch, which
issues requests and saves a fresh record. -/
theorem find_cached_covered_hit_no_network (cache : Cache)
    (symbol interval : String) (start_time end_time st et : Nat)
    (rec : CacheKey × KlineData)
    (hexact : cache_lookup cache
      (cache_filename symbol interval start_time end_time) = none)
    (hmem : rec ∈ cache)
    (hsym : rec.1.symbol = string_upper symbol)
    (hitv : rec.1.interval = interval)
    (hst : rec.2.start_time = some st)
    (het : rec.2.end_time = some et)
    (hcov : st ≤ start_time ∧ end_time ≤ et) :
    (∃ res, find_cached cache symbol interval start_time end_time =
        some res ∧
      ∀ b ∈ res.bars,
        start_time ≤ b.open_time ∧ b.open_time ≤ end_time) ∧
    (∀ (env : RunEnv) (req : BacktestRequest) (d : KlineData),
      req.use_cached_data = true → req.force_data_refresh = false →
      find_cached env.cache req.symbol req.interval req.start_ms
          req.end_ms = some d →
      d.bars ≠ [] →
      fetch_data env req = .ok (d, true, env.cache, 0)) ∧
    (∀ (env : RunEnv) (req : BacktestRequest) (d data : KlineData)
        (fst fet : Nat),
      req.use_cached_data = true → req.force_data_refresh = false →
      find_cached env.cache req.symbol req.interval req.start_ms
          req.end_ms = some d →
      d.bars = [] →
      env.fetch_result = .ok data → data.bars ≠ [] →
      data.start_time = some fst → data.end_time = some fet →
      fetch_data env req = .ok (data, false,
        cache_write env.cache
          (cache_filename data.symbol data.interval fst fet) data,
        env.fetch_requests)) := by
  refine ⟨?_, ?_, ?_⟩
  · have hsome : (find_cached cache symbol interval start_time
        end_time).isSome := by
      unfold find_cached
      rw [hexact]
      rw [List.findSome?_isSome_iff]
      refine ⟨rec, ?_, ?_⟩
      · rw [List.mem_filter]
        exact ⟨hmem, by simp [hsym, hitv]⟩
      · rw [hst, het]
        dsimp only
        rw [if_pos hcov]
        simp
    obtain ⟨res, hres⟩ := Option.isSome_iff_exists.mp hsome
    exact ⟨res, hres,
      find_cached_scan_bars_in_range cache symbol interval start_time
        end_time res hexact hres⟩
  · intro env req d hu hf hhit hne
    unfold fetch_data
    rw [hu, hf]
    simp [hhit, hne]
  · intro env req d data fst fet hu hf hhit hempty henv hdne hfst hfet
    have hsave : save data env.cache = .ok (cache_write env.cache
        (cache_filename data.symbol data.interval fst fet) data) := by
      unfold save
      rw [if_neg hdne, hfst, hfet]
    unfold fetch_data
    rw [hu, hf]
    simp [hhit, hempty, henv, hsave]

/-- A bar with explicit open and close times; prices are irrelevant to
cache-range questions. -/
def cache_bar (t ct : Nat) : KlineBar :=
  ⟨t, 1, 1, 1, 1, 1, ct, 1, 1, 1, 1⟩

/-- A minute series covering `[0, 86459999]`: bars open at `0`,
`43200000` and `86400000`. -/
def sample_cached_series : KlineData :=
  mkKlineData "BTCUSDT" "1m"
    [cache_bar 0 59999, cache_bar 43200000 43259999,
      cache_bar 86400000 86459999] none none

/-- The cache directory after saving `sample_cached_series` into an empty
directory. -/
def sample_cache : Cache :=
  (save sample_cached_series []).toOption.getD []

/-- C3 counterexample.  Requesting `[0, 43200000)` from a cache holding a
saved superset record returns a hit that includes the bar opening exactly
at `43200000` — the requested exclusive end — so the returned bars do not
all lie within the half-open interval `[start, end)`. -/
theorem find_cached_not_half_open :
    (find_cached sample_cache "BTCUSDT" "1m" 0 43200000).isSome = true ∧
    ¬(∀ b ∈ ((find_cached sample_cache "BTCUSDT" "1m" 0
          43200000).getD (mkKlineData "" "" [] none none)).bars,
        b.open_time < 43200000) := by
  decide

/-- The superset hit for the request `[0, 43200000)` against
`sample_cache`: the stored record filtered to the closed window. -/
def sample_cache_hit_series : KlineData :=
  mkKlineData "BTCUSDT" "1m"
    [cache_bar 0 59999, cache_bar 43200000 43259999] none none

/-- An environment whose cache is `sample_cache` and whose network fetch
would fail if it were ever consulted. -/
def env_cache_hit : RunEnv :=
  { cache := sample_cache
    fetch_result := .error "network disabled"
    fetch_requests := 3
    convert_io := .ok ()
    docker_available := true
    docker_run := ⟨10, 0, "", none, true⟩
    timeout_seconds := 300
    parse_io := .ok () }

/-- A request for the covered, bar-holding window `[0, 43200000)`. -/
def request_cached : BacktestRequest :=
  { strategy_code := some "class S: pass"
    symbol := "BTCUSDT"
    interval := "1m"
    start_ms := 0
    end_ms := 43200000
    use_cached_data := true
    force_data_refresh := false }

/-- A saved two-day daily series covering `[0, 172799999]`. -/
def sample_daily_series : KlineData :=
  mkKlineData "BTCUSDT" "1d"
    [cache_bar 0 86399999, cache_bar 86400000 172799999] none none

/-- The cache directory holding only the daily record. -/
def daily_cache : Cache :=
  (save sample_daily_series []).toOption.getD []

/-- What the network would return for the empty-window request. -/
def fresh_fetch_series : KlineData :=
  mkKlineData "BTCUSDT" "1d" [cache_bar 129600000 215999999] none none

/-- An environment whose cache is `daily_cache` and whose fetch returns
`fresh_fetch_series` at the cost of two HTTP requests. -/
def env_empty_hit : RunEnv :=
  { cache := daily_cache
    fetch_result := .ok fresh_fetch_series
    fetch_requests := 2
    convert_io := .ok ()
    docker_available := true
    docker_run := ⟨10, 0, "", none, true⟩
    timeout_seconds := 300
    parse_io := .ok () }

/-- A request whose range `[129601000, 129602000)` is covered by the
daily record's metadata but holds no bar open: the superset hit is an
empty series. -/
def request_empty_window : BacktestRequest :=
  { strategy_code := some "class S: pass"
    symbol := "BTCUSDT"
    interval := "1d"
    start_ms := 129601000
    end_ms := 129602000
    use_cached_data := true
    force_data_refresh := false }

/-- Witness for the amended C3 at concrete caches: the covered request
`[0, 43200000)` hits with bars in the closed interval and is served with
zero HTTP requests, while the covered-but-empty window
`[129601000, 129602000)` is a falsy hit and goes to the network. -/
theorem find_cached_covered_hit_no_network_witness :
    (∃ res, find_cached sample_cache "BTCUSDT" "1m" 0 43200000 =
        some res ∧
      ∀ b ∈ res.bars, 0 ≤ b.open_time ∧ b.open_time ≤ 43200000) ∧
    fetch_data env_cache_hit request_cached =
      .ok (sample_cache_hit_series, true, sample_cache, 0) ∧
    fetch_data env_empty_hit request_empty_window =
      .ok (fresh_fetch_series, false,
        cache_write daily_cache
          (cache_filename "BTCUSDT" "1d" 129600000 215999999)
          fresh_fetch_series,
        2) := by
  have h := find_cached_covered_hit_no_network sample_cache "BTCUSDT"
    "1m" 0 43200000 0 86459999
    (cache_filename "BTCUSDT" "1m" 0 86459999, sample_cached_series)
    (by decide) (by decide) (by decide) (by decide) (by decide)
    (by decide) (by decide)
  exact ⟨h.1,
    h.2.1 env_cache_hit request_cached sample_cache_hit_series rfl rfl
      (by decide) (by decide),
    h.2.2 env_empty_hit request_empty_window
      (mkKlineData "BTCUSDT" "1d" [] none none) fresh_fetch_series
      129600000 215999999 rfl rfl (by decide) (by decide) rfl
      (by decide) (by decide) (by decide)⟩

/-! ## Lemmas: cache writes -/

/-- Overwriting the record with key `k` in place makes `k` map to the new
record. -/
theorem cache_lookup_map_replace (c : Cache) (k : CacheKey)
    (d : KlineData) (hsome : (cache_lookup c k).isSome = true) :
    cache_lookup (c.map (fun r => if r.1 = k then (k, d) else r)) k =
      some d := by
  induction c with
  | nil => simp [cache_lookup] at hsome
  | cons p c ih =>
      by_cases hp : p.1 = k
      · simp [cache_lookup, hp]
      · have hsome' : (cache_lookup c k).isSome = true := by
          simpa [cache_lookup, hp] using hsome
        simp [cache_lookup, hp, ih hsome']

/-- In-place overwrites do not disturb other keys. -/
theorem cache_lookup_map_replace_other (c : Cache) (k k' : CacheKey)
    (d : KlineData) (hkk' : ¬k = k') :
    cache_lookup (c.map (fun r => if r.1 = k then (k, d) else r)) k' =
      cache_lookup c k' := by
  induction c with
  | nil => simp [cache_lookup]
  | cons p c ih =>
      by_cases hp : p.1 = k
      · have hpk' : ¬p.1 = k' := by rw [hp]; exact hkk'
        simp [cache_lookup, hp, hkk', hpk', ih]
      · by_cases hp' : p.1 = k'
        · have hk'k : ¬k' = k := fun h => hkk' h.symm
          simp [cache_lookup, hp, hp', hk'k]
        · simp [cache_lookup, hp, hp', ih]

/-- Appending a fresh record makes its key map to it. -/
theorem cache_lookup_append_single (c : Cache) (k : CacheKey)
    (d : KlineData) (hnone : ¬(cache_lookup c k).isSome = true) :
    cache_lookup (c ++ [(k, d)]) k = some d := by
  induction c with
  | nil => simp [cache_lookup]
  | cons p c ih =>
      by_cases hp : p.1 = k
      · exact absurd (by simp [cache_lookup, hp]) hnone
      · have hnone' : ¬(cache_lookup c k).isSome = true := by
          simpa [cache_lookup, hp] using hnone
        simp [cache_lookup, hp, ih hnone']

/-- Appending a record does not disturb other keys. -/
theorem cache_lookup_append_single_other (c : Cache) (k k' : CacheKey)
    (d : KlineData) (hkk' : ¬k = k') :
    cache_lookup (c ++ [(k, d)]) k' = cache_lookup c k' := by
  induction c with
  | nil => simp [cache_lookup, hkk']
  | cons p c ih => by_cases hp' : p.1 = k' <;> simp [cache_lookup, hp', ih]

/-- Looking up the key just written yields the written record. -/
theorem cache_lookup_write_self (c : Cache) (k : CacheKey)
    (d : KlineData) :
    cache_lookup (cache_write c k d) k = some d := by
  unfold cache_write
  split
  · next hsome => exact cache_lookup_map_replace c k d hsome
  · next hnone => exact cache_lookup_append_single c k d hnone

/-- Writing one key leaves every other file untouched. -/
theorem cache_lookup_write_other (c : Cache) (k k' : CacheKey)
    (d : KlineData) (hne : ¬k' = k) :
    cache_lookup (cache_write c k d) k' = cache_lookup c k' := by
  have hkk' : ¬k = k' := fun h => hne h.symm
  unfold cache_write
  split
  · exact cache_lookup_map_replace_other c k k' d hkk'
  · exact cache_lookup_append_single_other c k k' d hkk'

/-- C10.  `save` refuses an empty series with a `ValueError` and leaves
the cache directory untouched; a non-empty series (whose metadata is
populated, as `__post_init__` guarantees) is written as exactly one
record file: its own name maps to it and every other file is unchanged.
Consequently an orchestrator run whose fetch returns zero bars fails as a
whole: the empty-series error propagates out of the data stage and the
response is not a success. -/
theorem save_empty_rejected_and_pipeline_fails :
    (∀ (data : KlineData) (cache : Cache), data.bars = [] →
      save data cache = .error "Cannot save empty KlineData") ∧
    (∀ (data : KlineData) (cache : Cache) (st et : Nat),
      data.bars ≠ [] → data.start_time = some st →
      data.end_time = some et →
      save data cache = .ok (cache_write cache
          (cache_filename data.symbol data.interval st et) data) ∧
      cache_lookup (cache_write cache
          (cache_filename data.symbol data.interval st et) data)
        (cache_filename data.symbol data.interval st et) = some data ∧
      (∀ k, ¬k = cache_filename data.symbol data.interval st et →
        cache_lookup (cache_write cache
            (cache_filename data.symbol data.interval st et) data) k =
          cache_lookup cache k)) ∧
    (∀ (env : RunEnv) (req : BacktestRequest) (d : KlineData),
      find_cached env.cache req.symbol req.interval req.start_ms
          req.end_ms = none →
      env.fetch_result = .ok d → d.bars = [] →
      (run_backtest env req).1.success = false ∧
      (run_backtest env req).1.error_stage = some "unknown" ∧
      (run_backtest env req).1.error_message =
        some "Cannot save empty KlineData") := by
  refine ⟨?_, ?_, ?_⟩
  · intro data cache hempty
    unfold save
    rw [if_pos hempty]
  · intro data cache st et hne hst het
    unfold save
    rw [if_neg hne, hst, het]
    exact ⟨rfl, cache_lookup_write_self _ _ _,
      fun k hk => cache_lookup_write_other _ _ _ _ hk⟩
  · intro env req d hmiss henv hempty
    have hsave : save d env.cache = .error "Cannot save empty KlineData" := by
      unfold save
      rw [if_pos hempty]
    have hfetch : fetch_data env req =
        .error "Cannot save empty KlineData" := by
      unfold fetch_data
      cases hc : (req.use_cached_data && !req.force_data_refresh) <;>
        simp [hc, hmiss, henv, hsave]
    unfold run_backtest
    rw [hfetch]
    exact ⟨rfl, rfl, rfl⟩

/-- The empty series a zero-bar fetch produces. -/
def empty_series : KlineData :=
  mkKlineData "BTCUSDT" "1h" [] none none

/-- An environment whose network fetch returns zero bars, everything else
healthy. -/
def empty_fetch_env : RunEnv :=
  { cache := []
    fetch_result := .ok empty_series
    fetch_requests := 1
    convert_io := .ok ()
    docker_available := true
    docker_run := ⟨10, 0, "", none, true⟩
    timeout_seconds := 300
    parse_io := .ok () }

/-- A plain hourly backtest request. -/
def sample_request : BacktestRequest :=
  { strategy_code := some "class S: pass"
    symbol := "BTCUSDT"
    interval := "1h"
    start_ms := 0
    end_ms := 3600000
    use_cached_data := true
    force_data_refresh := false }

/-- Witness for C10 at concrete inputs: saving an empty series errors,
saving the one-bar hourly series writes its record, and the orchestrator
run whose fetch returns zero bars is not a success. -/
theorem save_empty_rejected_and_pipeline_fails_witness :
    save empty_series [] = .error "Cannot save empty KlineData" ∧
    save sample_hour_data [] = .ok (cache_write []
      (cache_filename "BTCUSDT" "1h" 0 3599999) sample_hour_data) ∧
    (run_backtest empty_fetch_env sample_request).1.success = false :=
  ⟨save_empty_rejected_and_pipeline_fails.1 empty_series [] (by decide),
    (save_empty_rejected_and_pipeline_fails.2.1 sample_hour_data [] 0
      3599999 (by decide) (by decide) (by decide)).1,
    (save_empty_rejected_and_pipeline_fails.2.2 empty_fetch_env
      sample_request empty_series (by decide) rfl (by decide)).1⟩

/-! ## Lemmas: retry loop -/

/-- Under nothing but 429 responses, the loop sleeps each advertised
interval, consumes one attempt per response, and falls out of the budget
with `RuntimeError("Max retries exceeded")`. -/
theorem make_request_from_all_429 (ras : Nat → Nat) (n : Nat) :
    ∀ attempt, make_request_from (fun i => .status429 (ras i)) n attempt =
      ⟨.maxRetriesExceeded, (List.range' attempt (n - attempt)).map ras⟩ := by
  have H : ∀ fuel attempt, n - attempt = fuel →
      make_request_from (fun i => .status429 (ras i)) n attempt =
        ⟨.maxRetriesExceeded,
          (List.range' attempt (n - attempt)).map ras⟩ := by
    intro fuel
    induction fuel with
    | zero =>
        intro attempt h0
        rw [make_request_from, dif_neg (by omega), h0]
        simp
    | succ k ih =>
        intro attempt h
        rw [make_request_from, dif_pos (by omega)]
        dsimp only
        rw [ih (attempt + 1) (by omega), h]
        have hk : n - (attempt + 1) = k := by omega
        rw [hk, List.range'_succ, List.map_cons]
  intro attempt
  exact H (n - attempt) attempt rfl

/-- C4 (corrected claim, amended statement).  An HTTP 429 response makes
the request path sleep for the provider's advertised retry interval and
retry — but the retry consumes one attempt of the `max_retries` budget
(the `continue` stays inside `for attempt in range(max_retries)`), so
`max_retries` consecutive 429 responses exhaust the budget and the
request fails with the max-retries error after sleeping each advertised
interval. -/
theorem make_request_429_sleeps_and_consumes_budget :
    (∀ (responses : Nat → ApiResponse) (max_retries attempt retry_after :
        Nat),
      attempt < max_retries →
      responses attempt = .status429 retry_after →
      make_request_from responses max_retries attempt =
        ⟨(make_request_from responses max_retries (attempt + 1)).outcome,
          retry_after ::
            (make_request_from responses max_retries
              (attempt + 1)).sleeps⟩) ∧
    (∀ (ras : Nat → Nat) (n : Nat),
      make_request (fun i => .status429 (ras i)) n =
        ⟨.maxRetriesExceeded, (List.range' 0 n).map ras⟩) := by
  constructor
  · intro responses max_retries attempt retry_after hlt hresp
    rw [make_request_from, dif_pos hlt, hresp]
  · intro ras n
    unfold make_request
    rw [make_request_from_all_429 ras n 0]
    simp

/-- C4 counterexample.  Three consecutive 429 responses against a retry
budget of three exhaust the budget: the request fails with
`RuntimeError("Max retries exceeded")` (after sleeping the advertised 60
seconds three times), contradicting "any number of consecutive 429
responses never exhausts the retry budget". -/
theorem make_request_429_exhaustion_counterexample :
    make_request (fun _ => .status429 60) 3 =
      ⟨.maxRetriesExceeded, [60, 60, 60]⟩ := by
  have h := make_request_from_all_429 (fun _ => 60) 3 0
  unfold make_request
  rw [h]
  rfl

/-- Witness for the amended C4 at concrete inputs. -/
theorem make_request_429_sleeps_and_consumes_budget_witness :
    make_request_from (fun _ => .status429 60) 3 0 =
      ⟨(make_request_from (fun _ => .status429 60) 3 1).outcome,
        60 :: (make_request_from (fun _ => .status429 60) 3 1).sleeps⟩ ∧
    make_request (fun _ => .status429 60) 3 =
      ⟨.maxRetriesExceeded, [60, 60, 60]⟩ :=
  ⟨make_request_429_sleeps_and_consumes_budget.1 (fun _ => .status429 60)
      3 0 60 (by omega) rfl,
    by rw [make_request_429_sleeps_and_consumes_budget.2]; rfl⟩

/-! ## Lemmas: token bucket -/

/-- Unpacking a successful `bucket_acquire` step. -/
theorem bucket_acquire_eq {cap rate : ℚ} {s s' : BucketState} {t w : ℚ}
    (h : bucket_acquire cap rate s t w = some s') :
    w ≤ (bucket_refill cap rate s t).tokens ∧
    s'.tokens = (bucket_refill cap rate s t).tokens - w ∧
    s'.last_update = t := by
  unfold bucket_acquire at h
  dsimp only at h
  by_cases hw : w ≤ (bucket_refill cap rate s t).tokens
  · rw [if_pos hw] at h
    have h' := Option.some.inj h
    rw [← h']
    exact ⟨hw, rfl, rfl⟩
  · rw [if_neg hw] at h
    cases h

/-- A refill never exceeds the linear refill amount. -/
theorem bucket_refill_tokens_le (cap rate : ℚ) (s : BucketState)
    (t : ℚ) :
    (bucket_refill cap rate s t).tokens ≤
      s.tokens + (t - s.last_update) * rate :=
  min_le_right _ _

/-- A refill never exceeds the capacity. -/
theorem bucket_refill_tokens_le_cap (cap rate : ℚ) (s : BucketState)
    (t : ℚ) :
    (bucket_refill cap rate s t).tokens ≤ cap :=
  min_le_left _ _

/-- Every event of an admissible run happens no earlier than the starting
state's clock. -/
theorem runsTo_times_ge {cap rate : ℚ} {s sf : BucketState}
    {evts : List AcquireEvent} (h : RunsTo cap rate s evts sf) :
    ∀ e ∈ evts, s.last_update ≤ e.time := by
  induction h with
  | nil => intro e he; cases he
  | @cons s s' sf e es ht hstep hrest ih =>
      intro e' he'
      rcases List.mem_cons.mp he' with rfl | he'
      · exact ht
      · have hlast : s'.last_update = e.time := (bucket_acquire_eq hstep).2.2
        have := ih e' he'
        rw [hlast] at this
        exact le_trans ht this

/-- Weight debited before a deadline `b` is covered by the tokens on hand
plus the refill the bucket can accumulate until `b`. -/
theorem runsTo_deadline_bound {cap rate : ℚ} {s sf : BucketState}
    {evts : List AcquireEvent} (h : RunsTo cap rate s evts sf)
    (hrate : 0 ≤ rate) (htok : 0 ≤ s.tokens) (b : ℚ) :
    sum_weights (evts.filter (fun e => decide (e.time ≤ b))) ≤
      s.tokens + max 0 (b - s.last_update) * rate := by
  induction h with
  | @nil s0 =>
      simp only [List.filter_nil, sum_weights, List.map_nil, List.sum_nil]
      have hm : (0 : ℚ) ≤ max 0 (b - s0.last_update) * rate :=
        mul_nonneg (le_max_left 0 _) hrate
      linarith
  | @cons s s' sf e es ht hstep hrest ih =>
      obtain ⟨hguard, htoks', hlast'⟩ := bucket_acquire_eq hstep
      have htok' : 0 ≤ s'.tokens := by rw [htoks']; linarith
      by_cases hb : e.time ≤ b
      · rw [List.filter_cons_of_pos (by simpa using hb)]
        have hsum : sum_weights (e ::
            es.filter (fun e => decide (e.time ≤ b))) =
            e.weight + sum_weights (es.filter
              (fun e => decide (e.time ≤ b))) := by
          simp [sum_weights]
        rw [hsum]
        have hih := ih htok'
        rw [hlast'] at hih
        have hrefill := bucket_refill_tokens_le cap rate s e.time
        have hmax1 : max 0 (b - e.time) = b - e.time :=
          max_eq_right (by linarith)
        have hmax2 : max 0 (b - s.last_update) = b - s.last_update :=
          max_eq_right (by linarith)
        rw [hmax1] at hih
        rw [hmax2]
        nlinarith [hih, hrefill, htoks']
      · rw [List.filter_cons_of_neg (by simpa using hb)]
        have hnone : es.filter (fun e => decide (e.time ≤ b)) = [] := by
          rw [List.filter_eq_nil_iff]
          intro a ha
          have hge := runsTo_times_ge hrest a ha
          rw [hlast'] at hge
          simp only [decide_eq_true_eq]
          intro hab
          exact hb (le_trans hge hab)
        rw [hnone]
        simp only [sum_weights, List.map_nil, List.sum_nil]
        have hm : (0 : ℚ) ≤ max 0 (b - s.last_update) * rate :=
          mul_nonneg (le_max_left 0 _) hrate
        linarith

/-- Refilling at an intermediate instant and again later is the same as
one refill (the code calls `_refill` on every loop iteration; inserting a
virtual refill changes nothing). -/
theorem bucket_refill_comp (cap rate : ℚ) (s : BucketState) (t t' : ℚ)
    (_h1 : s.last_update ≤ t) (h2 : t ≤ t') (hrate : 0 ≤ rate) :
    bucket_refill cap rate (bucket_refill cap rate s t) t' =
      bucket_refill cap rate s t' := by
  unfold bucket_refill
  simp only [BucketState.mk.injEq, and_true]
  have hb : 0 ≤ (t' - t) * rate := mul_nonneg (by linarith) hrate
  rcases le_total (s.tokens + (t - s.last_update) * rate) cap with h | h
  · rw [min_eq_right h]
    have : s.tokens + (t - s.last_update) * rate + (t' - t) * rate =
        s.tokens + (t' - s.last_update) * rate := by ring
    rw [this]
  · rw [min_eq_left h]
    rw [min_eq_left (by linarith), min_eq_left (by nlinarith)]

/-- An admissible run is still admissible from the state refilled at any
instant before its first event. -/
theorem runsTo_of_refill {cap rate : ℚ} {s sf : BucketState}
    {e : AcquireEvent} {es : List AcquireEvent} (t : ℚ)
    (h : RunsTo cap rate s (e :: es) sf) (h1 : s.last_update ≤ t)
    (h2 : t ≤ e.time) (hrate : 0 ≤ rate) :
    RunsTo cap rate (bucket_refill cap rate s t) (e :: es) sf := by
  cases h with
  | cons ht hstep hrest =>
      refine RunsTo.cons h2 ?_ hrest
      unfold bucket_acquire at hstep ⊢
      rw [bucket_refill_comp cap rate s t e.time h1 h2 hrate]
      exact hstep

/-- Restricting to a stronger filter cannot increase the debited weight,
when all weights are nonnegative. -/
theorem sum_weights_filter_mono (l : List AcquireEvent)
    (p q : AcquireEvent → Bool) (hw : ∀ e ∈ l, 0 ≤ e.weight)
    (hpq : ∀ e, p e = true → q e = true) :
    sum_weights (l.filter p) ≤ sum_weights (l.filter q) := by
  induction l with
  | nil => simp [sum_weights]
  | cons a l ih =>
      have hw' : ∀ e ∈ l, 0 ≤ e.weight := fun e he => hw e (by simp [he])
      have ha : 0 ≤ a.weight := hw a (by simp)
      by_cases hp : p a = true
      · rw [List.filter_cons_of_pos hp,
          List.filter_cons_of_pos (hpq a hp)]
        have h1 : sum_weights (a :: l.filter p) =
            a.weight + sum_weights (l.filter p) := by simp [sum_weights]
        have h2 : sum_weights (a :: l.filter q) =
            a.weight + sum_weights (l.filter q) := by simp [sum_weights]
        rw [h1, h2]
        linarith [ih hw']
      · rw [List.filter_cons_of_neg hp]
        by_cases hq : q a = true
        · rw [List.filter_cons_of_pos hq]
          have h2 : sum_weights (a :: l.filter q) =
              a.weight + sum_weights (l.filter q) := by simp [sum_weights]
          rw [h2]
          linarith [ih hw']
        · rw [List.filter_cons_of_neg hq]
          exact ih hw'

/-- The rolling-window bound from any state with at most `cap` tokens. -/
theorem runsTo_window_bound {cap rate : ℚ} {s sf : BucketState}
    {evts : List AcquireEvent} (h : RunsTo cap rate s evts sf)
    (hrate : 0 ≤ rate) (hcap : 0 ≤ cap) (htok0 : 0 ≤ s.tokens)
    (htokc : s.tokens ≤ cap) (hw : ∀ e ∈ evts, 0 ≤ e.weight)
    (t window : ℚ) (hwind : 0 ≤ window) :
    sum_weights (window_events t window evts) ≤ cap + window * rate := by
  induction h with
  | @nil s0 =>
      have hwr : (0 : ℚ) ≤ window * rate := mul_nonneg hwind hrate
      simp only [window_events, List.filter_nil, sum_weights,
        List.map_nil, List.sum_nil]
      linarith
  | @cons s s' sf e es ht hstep hrest ih =>
      obtain ⟨hguard, htoks', hlast'⟩ := bucket_acquire_eq hstep
      have htok0' : 0 ≤ s'.tokens := by rw [htoks']; linarith
      have htokc' : s'.tokens ≤ cap := by
        have hrc := bucket_refill_tokens_le_cap cap rate s e.time
        have hwe : 0 ≤ e.weight := hw e (by simp)
        rw [htoks']
        linarith
      have hw' : ∀ a ∈ es, 0 ≤ a.weight := fun a ha => hw a (by simp [ha])
      by_cases hlo : t ≤ e.time
      · by_cases hhi : e.time ≤ t + window
        · -- head event inside the window: bound the whole remaining run
          -- from the state refilled at the window start (or later)
          have h1 : s.last_update ≤ max s.last_update t := le_max_left _ _
          have h2 : max s.last_update t ≤ e.time := max_le ht hlo
          have hrun' := runsTo_of_refill (max s.last_update t)
            (RunsTo.cons ht hstep hrest) h1 h2 hrate
          have hs2tok : 0 ≤
              (bucket_refill cap rate s (max s.last_update t)).tokens := by
            have hd : 0 ≤ (max s.last_update t - s.last_update) * rate :=
              mul_nonneg (by linarith) hrate
            unfold bucket_refill
            simp only [le_min_iff]
            exact ⟨hcap, by linarith⟩
          have hdl := runsTo_deadline_bound hrun' hrate hs2tok (t + window)
          have hcapb :
              (bucket_refill cap rate s (max s.last_update t)).tokens ≤
                cap :=
            bucket_refill_tokens_le_cap cap rate s (max s.last_update t)
          have hlu :
              (bucket_refill cap rate s (max s.last_update t)).last_update
                = max s.last_update t := rfl
          rw [hlu] at hdl
          have hmaxle : max 0 (t + window - max s.last_update t) ≤
              window :=
            max_le hwind (by
              have := le_max_right s.last_update t
              linarith)
          have hdl2 : sum_weights ((e :: es).filter
              (fun a => decide (a.time ≤ t + window))) ≤
              cap + window * rate := by
            have hmul : max 0 (t + window - max s.last_update t) * rate ≤
                window * rate :=
              mul_le_mul_of_nonneg_right hmaxle hrate
            linarith
          have hmono : sum_weights (window_events t window (e :: es)) ≤
              sum_weights ((e :: es).filter
                (fun a => decide (a.time ≤ t + window))) := by
            apply sum_weights_filter_mono _ _ _ hw
            intro a hpa
            have := Bool.and_elim_right hpa
            exact this
          exact le_trans hmono hdl2
        · -- head event after the window: nothing of the rest is in it
          have hnone : window_events t window (e :: es) = [] := by
            unfold window_events
            rw [List.filter_eq_nil_iff]
            intro a ha
            rcases List.mem_cons.mp ha with rfl | ha'
            · simp only [Bool.and_eq_true, decide_eq_true_eq, not_and]
              intro _
              exact hhi
            · have hge := runsTo_times_ge hrest a ha'
              rw [hlast'] at hge
              simp only [Bool.and_eq_true, decide_eq_true_eq, not_and]
              intro _ hab
              exact hhi (le_trans hge hab)
          rw [hnone]
          have hwr : (0 : ℚ) ≤ window * rate := mul_nonneg hwind hrate
          simp only [sum_weights, List.map_nil, List.sum_nil]
          linarith
      · -- head event before the window start: drop it and recurse
        have hskip : window_events t window (e :: es) =
            window_events t window es := by
          unfold window_events
          rw [List.filter_cons_of_neg]
          simp only [Bool.and_eq_true, decide_eq_true_eq, not_and]
          intro hta
          exact absurd hta hlo
        rw [hskip]
        exact ih htok0' htokc' hw'

/-- C5 (corrected claim, amended statement).  The weight bucket of the
dual token-bucket limiter starts full (`_tokens = capacity`) and refills
continuously at `capacity / window` per unit time.  For every admissible
sequence of `acquire` debits with nonnegative weights, the weight debited
inside any closed rolling window of the configured window length is at
most **twice** the configured capacity — the tokens on hand at the window
start plus one window's worth of refill — not at most the capacity, as
the claim states. -/
theorem weighted_rate_limiter_rolling_window (cap window t0 : ℚ)
    (evts : List AcquireEvent) (sf : BucketState)
    (hrun : RunsTo cap (cap / window) ⟨cap, t0⟩ evts sf)
    (hcap : 0 ≤ cap) (hwind : 0 < window)
    (hw : ∀ e ∈ evts, 0 ≤ e.weight) (t : ℚ) :
    sum_weights (window_events t window evts) ≤ 2 * cap := by
  have hrate : 0 ≤ cap / window := div_nonneg hcap hwind.le
  have hb := runsTo_window_bound hrun hrate hcap
    (show (0 : ℚ) ≤ cap from hcap) (le_refl cap) hw t window hwind.le
  have hcw : window * (cap / window) = cap := by
    field_simp
  linarith

/-- An admissible two-debit run of the weight bucket with capacity 2 and
refill rate 2 (= capacity/window for window 1): the bucket is drained at
time 0 and, fully refilled, drained again at time 1. -/
theorem sample_bucket_run :
    RunsTo 2 2 ⟨2, 0⟩ [⟨0, 2⟩, ⟨1, 2⟩] ⟨0, 1⟩ := by
  have h1 : bucket_acquire 2 2 ⟨2, 0⟩ 0 2 = some ⟨0, 0⟩ := by
    unfold bucket_acquire bucket_refill
    norm_num
  have h2 : bucket_acquire 2 2 ⟨0, 0⟩ 1 2 = some ⟨0, 1⟩ := by
    unfold bucket_acquire bucket_refill
    norm_num
  exact RunsTo.cons (le_refl 0) h1
    (RunsTo.cons (by norm_num) h2 (RunsTo.nil _))

/-- C5 counterexample.  With weight capacity 2 and a window of length 1,
the admissible run above debits 4 weight units inside the closed rolling
window `[0, 1]` — more than the configured capacity — refuting the claim
that consumption in a rolling window never exceeds the capacity. -/
theorem rate_limiter_window_exceeds_capacity :
    RunsTo 2 2 ⟨2, 0⟩ [⟨0, 2⟩, ⟨1, 2⟩] ⟨0, 1⟩ ∧
    sum_weights (window_events 0 1 [⟨0, 2⟩, ⟨1, 2⟩]) = 4 ∧
    ¬(sum_weights (window_events 0 1 [⟨0, 2⟩, ⟨1, 2⟩]) ≤ 2) :=
  ⟨sample_bucket_run,
    by norm_num [window_events, sum_weights],
    by norm_num [window_events, sum_weights]⟩

/-- Witness for the amended C5 at the concrete run: the window
consumption 4 satisfies the proved bound `2 * capacity = 4`. -/
theorem weighted_rate_limiter_rolling_window_witness :
    sum_weights (window_events 0 1 [⟨0, 2⟩, ⟨1, 2⟩]) ≤ 2 * 2 :=
  weighted_rate_limiter_rolling_window 2 1 0 [⟨0, 2⟩, ⟨1, 2⟩] ⟨0, 1⟩
    (by rw [show ((2 : ℚ) / 1) = 2 from by norm_num]
        exact sample_bucket_run)
    (by norm_num) (by norm_num)
    (by intro e he
        rcases List.mem_cons.mp he with rfl | he
        · norm_num
        · rcases List.mem_cons.mp he with rfl | he
          · norm_num
          · cases he)
    0

/-! ## C8: execution deadline -/

/-- C8.  Whenever the subprocess would outlive the configured deadline,
`run_backtest_docker` kills the process (`process.kill()` in the
`TimeoutError` handler) and returns a result marked failed whose error
message embeds the configured timeout value; the model is a total
function, reflecting that `asyncio.wait_for` bounds the wait — no
behaviour of the subprocess leaves the orchestrator hanging. -/
theorem run_backtest_docker_timeout (beh : DockerRun)
    (timeout_seconds : Nat) (hok : beh.setup_exception = none)
    (hlong : timeout_seconds < beh.duration) :
    (run_backtest_docker beh timeout_seconds).2 = true ∧
    (run_backtest_docker beh timeout_seconds).1.success = false ∧
    (run_backtest_docker beh timeout_seconds).1.error_message =
      some ("Backtest timed out after " ++ toString timeout_seconds ++
        "s") ∧
    (∃ pre post, (run_backtest_docker beh timeout_seconds).1.error_message
      = some (pre ++ toString timeout_seconds ++ post)) := by
  unfold run_backtest_docker
  rw [hok]
  dsimp only
  rw [if_pos hlong]
  exact ⟨rfl, rfl, rfl, "Backtest timed out after ", "s", rfl⟩

/-- Witness for C8: a subprocess that would run 400 seconds against a
300-second deadline is killed, marked failed, and the message carries
`300`. -/
theorem run_backtest_docker_timeout_witness :
    (run_backtest_docker ⟨400, 0, "", none, true⟩ 300).2 = true ∧
    (run_backtest_docker ⟨400, 0, "", none, true⟩ 300).1.success =
      false ∧
    (run_backtest_docker ⟨400, 0, "", none, true⟩ 300).1.error_message =
      some ("Backtest timed out after " ++ toString 300 ++ "s") ∧
    (∃ pre post,
      (run_backtest_docker ⟨400, 0, "", none, true⟩ 300).1.error_message
        = some (pre ++ toString 300 ++ post)) :=
  run_backtest_docker_timeout ⟨400, 0, "", none, true⟩ 300 rfl
    (by decide)

/-! ## C9: trade counting -/

/-- C9.  When the engine output contains order (fill) records, the
reported completed-trade count is `min(filled buys, filled sells)`,
regardless of the engine's self-reported figures; only with no order
records does the parser fall back to the engine's self-reported count. -/
theorem parsed_total_trades_min_override :
    (∀ (orders : List LeanOrder) (tsc : Option Int) (stt : Int),
      orders ≠ [] →
      parsed_total_trades orders tsc stt =
        min (count_filled_buys orders : Int)
          (count_filled_sells orders : Int)) ∧
    (∀ (tsc : Option Int) (stt : Int),
      parsed_total_trades [] tsc stt =
        engine_reported_trades tsc stt) := by
  constructor
  · intro orders tsc stt hne
    unfold parsed_total_trades
    rw [if_pos hne]
  · intro tsc stt
    unfold parsed_total_trades
    rw [if_neg (by simp)]

/-- Orders with three filled buys, two filled sells, and one unfilled buy
(status 1 = submitted). -/
def sample_orders : List LeanOrder :=
  [⟨some 3, some 0⟩, ⟨some 3, some 0⟩, ⟨some 3, some 0⟩,
    ⟨some 3, some 1⟩, ⟨some 3, some 1⟩, ⟨some 1, some 0⟩]

/-- Witness for C9: with 3 filled buys and 2 filled sells the parser
reports 2, even though the engine self-reports 42 (trade statistics) and
7 (`totalNumberOfTrades`); with no orders it reports the engine's 7. -/
theorem parsed_total_trades_min_override_witness :
    parsed_total_trades sample_orders (some 7) 42 =
      min (count_filled_buys sample_orders : Int)
        (count_filled_sells sample_orders : Int) ∧
    min (count_filled_buys sample_orders : Int)
        (count_filled_sells sample_orders : Int) = 2 ∧
    parsed_total_trades [] (some 7) 42 =
      engine_reported_trades (some 7) 42 ∧
    engine_reported_trades (some 7) 42 = 7 :=
  ⟨parsed_total_trades_min_override.1 sample_orders (some 7) 42
      (by decide),
    by decide,
    parsed_total_trades_min_override.2 (some 7) 42,
    by decide⟩

/-! ## C6: unsupported interval -/

/-- C6 (corrected claim, amended statement).  For every request whose
interval fails `_validate_interval` and that carries strategy code, the
run never attempts execution or parsing (no subprocess is launched), it
is not a success, and whenever the run reaches strategy preparation it
fails there with the explicit unsupported-interval error — no silent
substitution of another resolution.  The rejection happens during
strategy preparation, which the orchestrator runs *after* data fetch and
conversion. -/
theorem unsupported_interval_rejected_before_execution (env : RunEnv)
    (req : BacktestRequest) (code msg : String)
    (hcode : req.strategy_code = some code)
    (hbad : validate_interval req.interval = .error msg) :
    (run_backtest env req).1.success = false ∧
    Stage.execution ∉ (run_backtest env req).2 ∧
    Stage.parsing ∉ (run_backtest env req).2 ∧
    (Stage.preparation ∈ (run_backtest env req).2 →
      (run_backtest env req).1.error_message = some msg ∧
      (run_backtest env req).1.error_stage = some "unknown") := by
  have hprep : prepare_strategy req = .error msg := by
    unfold prepare_strategy
    rw [hcode, hbad]
  unfold run_backtest
  cases hf : fetch_data env req with
  | error e =>
      dsimp only
      exact ⟨rfl, by decide, by decide,
        fun hmem => absurd hmem (by decide)⟩
  | ok v =>
      obtain ⟨d, uc, c, n⟩ := v
      dsimp only
      cases hc : env.convert_io with
      | error e =>
          dsimp only
          exact ⟨rfl, by decide, by decide,
            fun hmem => absurd hmem (by decide)⟩
      | ok u =>
          cases u
          dsimp only
          rw [hprep]
          dsimp only
          exact ⟨rfl, by decide, by decide, fun _ => ⟨rfl, rfl⟩⟩

/-- A one-bar 4-hour series: `4h` is a valid Binance interval the fetcher
and converter accept, but not a supported Lean interval. -/
def sample_4h_data : KlineData :=
  mkKlineData "BTCUSDT" "4h" [cache_bar 0 14399999] none none

/-- An environment in which every stage would succeed, feeding the 4-hour
series. -/
def env_4h : RunEnv :=
  { cache := []
    fetch_result := .ok sample_4h_data
    fetch_requests := 1
    convert_io := .ok ()
    docker_available := true
    docker_run := ⟨10, 0, "", none, true⟩
    timeout_seconds := 300
    parse_io := .ok () }

/-- A backtest request for the unsupported `4h` interval. -/
def request_4h : BacktestRequest :=
  { strategy_code := some "class S: pass"
    symbol := "BTCUSDT"
    interval := "4h"
    start_ms := 0
    end_ms := 14400000
    use_cached_data := true
    force_data_refresh := false }

/-- C6 counterexample.  With the unsupported interval `4h` the run does
reject the request with an explicit unsupported-interval error and never
executes — but the conversion stage has already been performed before the
rejection, so the claim "rejects ... before any conversion or execution
is performed" is false on the conversion half. -/
theorem unsupported_interval_after_conversion :
    Stage.conversion ∈ (run_backtest env_4h request_4h).2 ∧
    Stage.execution ∉ (run_backtest env_4h request_4h).2 ∧
    (run_backtest env_4h request_4h).1.success = false ∧
    (run_backtest env_4h request_4h).1.error_message =
      some ("Interval 4h is not supported. " ++
        "Only 1m, 1h, 1d are supported by Lean. " ++
        "Other intervals (e.g., 15m, 4h) would produce incorrect " ++
        "indicator calculations.") := by
  decide

/-- Witness for the amended C6 at the concrete `4h` request. -/
theorem unsupported_interval_rejected_witness :
    (run_backtest env_4h request_4h).1.success = false ∧
    Stage.execution ∉ (run_backtest env_4h request_4h).2 ∧
    (run_backtest env_4h request_4h).1.error_message =
      some ("Interval 4h is not supported. " ++
        "Only 1m, 1h, 1d are supported by Lean. " ++
        "Other intervals (e.g., 15m, 4h) would produce incorrect " ++
        "indicator calculations.") := by
  have h := unsupported_interval_rejected_before_execution env_4h
    request_4h "class S: pass"
    ("Interval 4h is not supported. " ++
      "Only 1m, 1h, 1d are supported by Lean. " ++
      "Other intervals (e.g., 15m, 4h) would produce incorrect " ++
      "indicator calculations.")
    rfl (by rfl)
  exact ⟨h.1, h.2.1, (h.2.2.2 (by decide)).1⟩

/-! ## C7: failure stage tagging -/

/-- Every failed runner result carries an error message. -/
theorem run_backtest_docker_failure_has_message (beh : DockerRun)
    (timeout_seconds : Nat)
    (h : (run_backtest_docker beh timeout_seconds).1.success = false) :
    (run_backtest_docker beh timeout_seconds).1.error_message.isSome =
      true := by
  unfold run_backtest_docker at h ⊢
  cases hse : beh.setup_exception with
  | some e => rfl
  | none =>
      rw [hse] at h
      dsimp only at h ⊢
      by_cases h1 : timeout_seconds < beh.duration
      · rw [if_pos h1]
        rfl
      · rw [if_neg h1] at h ⊢
        by_cases h2 : beh.exit_code ≠ 0
        · rw [if_pos h2]
          rfl
        · rw [if_neg h2] at h
          exact absurd h (by simp)

/-- C7 (corrected claim, amended statement).  A failing run is never
reported as success, always carries an error message, and its stage tag
is `"execution"` when the engine result reports failure and `"unknown"`
for every other failure — data-fetch, conversion, preparation and parsing
failures are all tagged `"unknown"`, not with their own stage names.  The
attempted stages always form a prefix of the pipeline order, so no stage
after the failing one is attempted. -/
theorem run_backtest_failure_stage_tagging (env : RunEnv)
    (req : BacktestRequest) :
    ((run_backtest env req).1.success = false →
      (run_backtest env req).1.error_message.isSome = true ∧
      ((run_backtest env req).1.error_stage = some "execution" ∨
        (run_backtest env req).1.error_stage = some "unknown")) ∧
    (∃ k, k ≤ 5 ∧ (run_backtest env req).2 = stage_order.take k) ∧
    ((run_backtest env req).1.success = true →
      (run_backtest env req).2 = stage_order) := by
  unfold run_backtest
  cases hf : fetch_data env req with
  | error e =>
      dsimp only
      exact ⟨fun _ => ⟨rfl, Or.inr rfl⟩, ⟨1, by omega, rfl⟩,
        fun h => absurd h (by simp [fail_unknown])⟩
  | ok v =>
      obtain ⟨d, uc, c, n⟩ := v
      dsimp only
      cases hc : env.convert_io with
      | error e =>
          dsimp only
          exact ⟨fun _ => ⟨rfl, Or.inr rfl⟩, ⟨2, by omega, rfl⟩,
            fun h => absurd h (by simp [fail_unknown])⟩
      | ok u =>
          cases u
          dsimp only
          cases hp : prepare_strategy req with
          | error e =>
              dsimp only
              exact ⟨fun _ => ⟨rfl, Or.inr rfl⟩, ⟨3, by omega, rfl⟩,
                fun h => absurd h (by simp [fail_unknown])⟩
          | ok r =>
              dsimp only
              by_cases hd : env.docker_available
              · rw [if_pos hd]
                by_cases hs : (run_backtest_docker env.docker_run
                    env.timeout_seconds).1.success = true
                · rw [if_pos hs]
                  cases hpr : env.parse_io with
                  | error e =>
                      dsimp only
                      exact ⟨fun _ => ⟨rfl, Or.inr rfl⟩,
                        ⟨5, by omega, rfl⟩,
                        fun h => absurd h (by simp [fail_unknown])⟩
                  | ok u2 =>
                      cases u2
                      dsimp only
                      exact ⟨fun h => absurd h (by simp),
                        ⟨5, by omega, rfl⟩, fun _ => rfl⟩
                · rw [if_neg hs]
                  dsimp only
                  refine ⟨fun _ => ⟨?_, Or.inl rfl⟩, ⟨4, by omega, rfl⟩,
                    fun h => absurd h (by simp)⟩
                  exact run_backtest_docker_failure_has_message
                    env.docker_run env.timeout_seconds
                    (by simpa using hs)
              · rw [if_neg hd]
                dsimp only
                exact ⟨fun _ => ⟨rfl, Or.inr rfl⟩, ⟨4, by omega, rfl⟩,
                  fun h => absurd h (by simp [fail_unknown])⟩

/-- An environment whose network fetch raises a transient error. -/
def env_fetch_fail : RunEnv :=
  { cache := []
    fetch_result := .error "connection reset by peer"
    fetch_requests := 0
    convert_io := .ok ()
    docker_available := true
    docker_run := ⟨10, 0, "", none, true⟩
    timeout_seconds := 300
    parse_io := .ok () }

/-- C7 counterexample.  A data-fetch failure is tagged `"unknown"` — not
`"data_fetch"` as the claim states: `run_backtest` has no specific
handler for the fetch, conversion or parsing stages, only the generic
`except Exception` with `error_stage = "unknown"`. -/
theorem data_fetch_failure_tagged_unknown :
    (run_backtest env_fetch_fail sample_request).1.success = false ∧
    (run_backtest env_fetch_fail sample_request).1.error_stage =
      some "unknown" ∧
    ¬((run_backtest env_fetch_fail sample_request).1.error_stage =
      some "data_fetch") := by
  decide

/-- Witness for the amended C7 at the concrete fetch-failure run. -/
theorem run_backtest_failure_stage_tagging_witness :
    (run_backtest env_fetch_fail sample_request).1.error_message.isSome
      = true ∧
    ((run_backtest env_fetch_fail sample_request).1.error_stage =
        some "execution" ∨
      (run_backtest env_fetch_fail sample_request).1.error_stage =
        some "unknown") ∧
    (∃ k, k ≤ 5 ∧ (run_backtest env_fetch_fail sample_request).2 =
      stage_order.take k) := by
  have h := run_backtest_failure_stage_tagging env_fetch_fail
    sample_request
  exact ⟨(h.1 (by decide)).1, (h.1 (by decide)).2, h.2.1⟩
